import Mathlib

/-!
Shallow embedding of the retry / circuit-breaker resilience layer of the
`@lineai/memory` SDK (`src/util/retry.ts`, types from `src/types/errors.ts`),
together with proofs of the specified properties.

Conventions of the embedding:
* JavaScript `number` timestamps (from `Date.now()`) are `Int`; the code's
  truthiness test `this.lastFailureTime && ...` is modelled faithfully:
  `null` and `0` are both falsy.
* Backoff delays involve `Math.pow` on JS floats; they are modelled over `ℚ`
  (the delay value never influences control flow, only the waiting time).
* The asynchronous thunk passed to `withRetry` is modelled as a function from
  the attempt number (1-based) to the `Outcome` it produces on that
  invocation; for `CircuitBreaker.execute` a single call is modelled by the
  outcome the thunk would produce together with the two `Date.now()` readings
  (at entry, and when a failure is recorded).
-/

/-- `MemoryError` from `src/types/errors.ts`: a discriminated union over the
fixed error kinds. -/
inductive MemoryError where
  | authenticationFailed (message : String)
  | permissionDenied (datasetId : String) (requiredPermission : String)
  | datasetNotFound (datasetId : String)
  | processingFailed (datasetId : String) (reason : String)
  | networkError (statusCode : Int) (message : String)
  | invalidInput (field : String) (message : String)
  | organizationRequired (message : String)
  | unknownError (message : String)
  deriving DecidableEq, Repr

/-- The discriminant string (`error` field) of a `MemoryError`. -/
def MemoryError.error : MemoryError → String
  | .authenticationFailed _ => "authentication_failed"
  | .permissionDenied _ _ => "permission_denied"
  | .datasetNotFound _ => "dataset_not_found"
  | .processingFailed _ _ => "processing_failed"
  | .networkError _ _ => "network_error"
  | .invalidInput _ _ => "invalid_input"
  | .organizationRequired _ => "organization_required"
  | .unknownError _ => "unknown_error"

/-- `Outcome<T>` from `src/types/errors.ts`:
`{success: true, value: T} | {success: false, error: MemoryError}`. -/
inductive Outcome (T : Type) where
  | success (value : T)
  | failure (error : MemoryError)
  deriving DecidableEq, Repr

/-- The `success` discriminant of an `Outcome`. -/
def Outcome.isSuccess {T : Type} : Outcome T → Bool
  | .success _ => true
  | .failure _ => false

/-- `RetryStrategy` from `src/util/retry.ts`.  Delay-related fields are
rationals (JS numbers used only in the delay computation); `maxAttempts` is a
natural number (the spec requires an integer ≥ 1). -/
structure RetryStrategy where
  maxAttempts : Nat
  initialDelayMs : ℚ
  maxDelayMs : ℚ
  backoffFactor : ℚ
  retryableErrors : List String
  deriving DecidableEq, Repr

/-- `defaultRetryStrategy` from `src/util/retry.ts`. -/
def defaultRetryStrategy : RetryStrategy :=
  { maxAttempts := 3
    initialDelayMs := 1000
    maxDelayMs := 10000
    backoffFactor := 2
    retryableErrors := ["network_error", "processing_failed"] }

/-- `isRetryableError` from `src/util/retry.ts`:
`strategy.retryableErrors.includes(error.error)`. -/
def isRetryableError (error : MemoryError) (strategy : RetryStrategy) : Bool :=
  strategy.retryableErrors.contains error.error

/-- The backoff delay computed on line 77-81 of `src/util/retry.ts` before the
retry that follows attempt `attemptNumber`:
`min(initialDelayMs * backoffFactor^(attemptNumber-1), maxDelayMs)`. -/
def computeDelay (strategy : RetryStrategy) (attemptNumber : Nat) : ℚ :=
  min (strategy.initialDelayMs * strategy.backoffFactor ^ (attemptNumber - 1))
    strategy.maxDelayMs

/-- Observable trace of one `withRetry` run: the returned outcome, how many
times the thunk was invoked, and the sequence of delays slept between
invocations. -/
structure RetryRun (T : Type) where
  result : Outcome T
  invocations : Nat
  delays : List ℚ
  deriving DecidableEq, Repr

/-- The inner recursive `attempt` function of `withRetry`
(`src/util/retry.ts` lines 55-88), instrumented with the invocation count and
the delays slept.  `fn k` is the outcome produced by the `k`-th invocation of
the thunk. -/
def attempt {T : Type} (fn : Nat → Outcome T) (strategy : RetryStrategy)
    (attemptNumber : Nat) : RetryRun T :=
  match fn attemptNumber with
  | .success v => ⟨.success v, 1, []⟩
  | .failure e =>
    if strategy.maxAttempts ≤ attemptNumber then
      ⟨.failure e, 1, []⟩
    else if ¬ isRetryableError e strategy then
      ⟨.failure e, 1, []⟩
    else
      let rest := attempt fn strategy (attemptNumber + 1)
      ⟨rest.result, rest.invocations + 1, computeDelay strategy attemptNumber :: rest.delays⟩
termination_by strategy.maxAttempts - attemptNumber
decreasing_by omega

/-- `withRetry` from `src/util/retry.ts`: starts the recursion at attempt 1. -/
def withRetry {T : Type} (fn : Nat → Outcome T) (strategy : RetryStrategy) :
    RetryRun T :=
  attempt fn strategy 1

/-- `CircuitState` from `src/util/retry.ts`: `'closed' | 'open' | 'half-open'`. -/
inductive CircuitState where
  | closed
  | «open»
  | halfOpen
  deriving DecidableEq, Repr

/-- The fields of the `CircuitBreaker` class (`src/util/retry.ts` lines
111-119): construction parameters `threshold` and `timeout`, plus the three
mutable fields. -/
structure CircuitBreaker where
  threshold : Nat
  timeout : Int
  state : CircuitState
  failureCount : Nat
  lastFailureTime : Option Int
  deriving DecidableEq, Repr

/-- A freshly constructed `CircuitBreaker`: `state = 'closed'`,
`failureCount = 0`, `lastFailureTime = null`. -/
def mkCircuitBreaker (threshold : Nat) (timeout : Int) : CircuitBreaker :=
  { threshold := threshold
    timeout := timeout
    state := .closed
    failureCount := 0
    lastFailureTime := none }

/-- `getState()` (lines 168-170). -/
def CircuitBreaker.getState (cb : CircuitBreaker) : CircuitState :=
  cb.state

/-- `reset()` (lines 172-176). -/
def CircuitBreaker.reset (cb : CircuitBreaker) : CircuitBreaker :=
  { cb with state := .closed, failureCount := 0, lastFailureTime := none }

/-- The synthetic failure returned while the circuit is open (lines 133-140). -/
def syntheticOpenFailure : MemoryError :=
  .networkError 503 "Circuit breaker is open"

/-- The open-circuit check at the top of `execute` (lines 122-142), with `now`
the value of `Date.now()` read there.  Returns `none` when the call is
rejected (circuit still open), otherwise the breaker state with which the
call proceeds.  The JS condition
`this.lastFailureTime && now - this.lastFailureTime >= this.timeout` treats
both `null` and `0` as falsy. -/
def CircuitBreaker.openCheck (cb : CircuitBreaker) (now : Int) :
    Option CircuitBreaker :=
  if cb.state = .«open» then
    match cb.lastFailureTime with
    | some t =>
      if t ≠ 0 ∧ cb.timeout ≤ now - t then
        some { cb with state := .halfOpen }
      else
        none
    | none => none
  else
    some cb

/-- The success branch of `execute` (lines 147-154): reset the failure count,
and close the circuit when half-open. -/
def CircuitBreaker.onSuccess (cb : CircuitBreaker) : CircuitBreaker :=
  { cb with
    failureCount := 0
    state := if cb.state = .halfOpen then .closed else cb.state }

/-- The failure branch of `execute` (lines 156-163), with `now` the value of
`Date.now()` read on line 158: increment the count, record the failure time,
and open the circuit when the threshold is reached. -/
def CircuitBreaker.onFailure (cb : CircuitBreaker) (now : Int) : CircuitBreaker :=
  { cb with
    failureCount := cb.failureCount + 1
    lastFailureTime := some now
    state := if cb.threshold ≤ cb.failureCount + 1 then .«open» else cb.state }

/-- Observable effect of one `execute` call: the breaker after the call, the
outcome returned to the caller, and whether the wrapped thunk was invoked. -/
structure ExecResult (T : Type) where
  breaker : CircuitBreaker
  result : Outcome T
  invoked : Bool
  deriving DecidableEq, Repr

/-- `execute` (lines 121-166).  `now` is the `Date.now()` reading of the
open-circuit check, `fnResult` the outcome the thunk produces if invoked, and
`failTime` the `Date.now()` reading used to record a failure. -/
def CircuitBreaker.execute {T : Type} (cb : CircuitBreaker) (now : Int)
    (fnResult : Outcome T) (failTime : Int) : ExecResult T :=
  match cb.openCheck now with
  | none => ⟨cb, .failure syntheticOpenFailure, false⟩
  | some cb1 =>
    match fnResult with
    | .success v => ⟨cb1.onSuccess, .success v, true⟩
    | .failure e => ⟨cb1.onFailure failTime, .failure e, true⟩

/-- One call on a breaker: either an `execute` (with its clock readings and
the thunk's outcome) or a `reset()`. -/
inductive BreakerCall (T : Type) where
  | exec (now : Int) (fnResult : Outcome T) (failTime : Int)
  | resetCall
  deriving DecidableEq, Repr

/-- Run a sequence of calls on a breaker. -/
def runCalls {T : Type} (cb : CircuitBreaker) : List (BreakerCall T) → CircuitBreaker
  | [] => cb
  | .exec now r ft :: rest => runCalls ((cb.execute now r ft).breaker) rest
  | .resetCall :: rest => runCalls cb.reset rest

/-- State invariant maintained by the breaker across calls: whenever the
circuit is open the failure count has reached the threshold and a failure
time is recorded, and whenever it is half-open the failure count has reached
the threshold. -/
def BreakerInv (cb : CircuitBreaker) : Prop :=
  (cb.state = .«open» →
    cb.threshold ≤ cb.failureCount ∧ ∃ t, cb.lastFailureTime = some t) ∧
  (cb.state = .halfOpen → cb.threshold ≤ cb.failureCount)

/-! ### Retry executor: properties of `withRetry` -/

/-- Characterisation of a run in which every invocation fails with a
retryable error: starting from attempt `k` (with `1 ≤ k ≤ maxAttempts`), the
run performs attempts `k, k+1, …, maxAttempts`, sleeps the computed backoff
delay between consecutive attempts, and returns the last failure. -/
lemma attempt_allFail {T : Type} (fn : Nat → Outcome T) (strategy : RetryStrategy)
    (hfail : ∀ i, ∃ e, fn i = Outcome.failure e ∧ isRetryableError e strategy = true) :
    ∀ n k, strategy.maxAttempts - k = n → 1 ≤ k → k ≤ strategy.maxAttempts →
      attempt fn strategy k =
        ⟨fn strategy.maxAttempts, strategy.maxAttempts - k + 1,
          (List.range' k (strategy.maxAttempts - k)).map (computeDelay strategy)⟩ := by
  intro n
  induction n with
  | zero =>
    intro k hn hk1 hk2
    have hk : k = strategy.maxAttempts := by omega
    obtain ⟨e, he, _⟩ := hfail k
    rw [attempt.eq_def, he]
    subst hk
    simp [he, hn]
  | succ n ih =>
    intro k hn hk1 hk2
    obtain ⟨e, he, hre⟩ := hfail k
    have hlt : ¬ strategy.maxAttempts ≤ k := by omega
    rw [attempt.eq_def, he]
    simp only [hlt, if_false, hre, not_true_eq_false, Bool.true_eq_false, if_false]
    rw [ih (k + 1) (by omega) (by omega) (by omega)]
    have h1 : strategy.maxAttempts - k = (strategy.maxAttempts - (k + 1)) + 1 := by omega
    rw [h1, List.range'_succ, List.map_cons]

/-- C3: for every strategy with `maxAttempts = N` (`N ≥ 1`) and every thunk
that fails with a retryable error kind on each invocation, `withRetry`
invokes the thunk exactly `N` times and returns the `N`-th failure
unchanged. -/
theorem withRetry_attempt_bound {T : Type} (strategy : RetryStrategy) (N : Nat)
    (fn : Nat → Outcome T)
    (hN : strategy.maxAttempts = N) (hN1 : 1 ≤ N)
    (hfail : ∀ i, ∃ e, fn i = Outcome.failure e ∧ isRetryableError e strategy = true) :
    (withRetry fn strategy).invocations = N ∧ (withRetry fn strategy).result = fn N := by
  rw [withRetry,
    attempt_allFail fn strategy hfail (strategy.maxAttempts - 1) 1 rfl le_rfl (by omega)]
  subst hN
  constructor
  · simp
    omega
  · rfl

/-- Witness for C3 at a concrete strategy and always-failing thunk. -/
theorem withRetry_attempt_bound_witness :
    (withRetry (T := Unit) (fun i => .failure (.networkError i "f"))
        ⟨2, 1, 5, 2, ["network_error"]⟩).invocations = 2 ∧
    (withRetry (T := Unit) (fun i => .failure (.networkError i "f"))
        ⟨2, 1, 5, 2, ["network_error"]⟩).result = .failure (.networkError 2 "f") :=
  withRetry_attempt_bound ⟨2, 1, 5, 2, ["network_error"]⟩ 2
    (fun i => .failure (.networkError i "f")) rfl (by omega)
    (fun i => ⟨.networkError i "f", rfl, by simp [isRetryableError, MemoryError.error]⟩)

/-- C4: the delays `withRetry` sleeps are exactly
`min(initialDelayMs * backoffFactor^(k-1), maxDelayMs)` for attempt numbers
`k = 1, …, maxAttempts - 1`; and for `backoffFactor ≥ 1`,
`initialDelayMs ≥ 0` and `maxDelayMs ≥ initialDelayMs`, successive computed
delays are non-decreasing and each is at most `maxDelayMs`. -/
theorem withRetry_backoff_delays (strategy : RetryStrategy) :
    (∀ (T : Type) (fn : Nat → Outcome T),
        (∀ i, ∃ e, fn i = Outcome.failure e ∧ isRetryableError e strategy = true) →
        1 ≤ strategy.maxAttempts →
        (withRetry fn strategy).delays =
          (List.range' 1 (strategy.maxAttempts - 1)).map (fun k =>
            min (strategy.initialDelayMs * strategy.backoffFactor ^ (k - 1))
              strategy.maxDelayMs)) ∧
    (1 ≤ strategy.backoffFactor → 0 ≤ strategy.initialDelayMs →
      strategy.initialDelayMs ≤ strategy.maxDelayMs →
      (∀ j k, j ≤ k → computeDelay strategy j ≤ computeDelay strategy k) ∧
      ∀ k, computeDelay strategy k ≤ strategy.maxDelayMs) := by
  constructor
  · intro T fn hfail hmax
    rw [withRetry,
      attempt_allFail fn strategy hfail (strategy.maxAttempts - 1) 1 rfl le_rfl (by omega)]
    rfl
  · intro hb hi _
    constructor
    · intro j k hjk
      refine min_le_min ?_ le_rfl
      exact mul_le_mul_of_nonneg_left (pow_le_pow_right₀ hb (by omega)) hi
    · intro k
      exact min_le_right _ _

/-- Witness for C4 at a concrete strategy: the two delays of a failing
3-attempt run, one monotonicity instance and one cap instance. -/
theorem withRetry_backoff_delays_witness :
    (withRetry (T := Unit) (fun _ => .failure (.networkError 500 "x"))
        ⟨3, 100, 1000, 2, ["network_error"]⟩).delays = [100, 200] ∧
    computeDelay ⟨3, 100, 1000, 2, ["network_error"]⟩ 1 ≤
      computeDelay ⟨3, 100, 1000, 2, ["network_error"]⟩ 2 ∧
    computeDelay ⟨3, 100, 1000, 2, ["network_error"]⟩ 9 ≤
      (⟨3, 100, 1000, 2, ["network_error"]⟩ : RetryStrategy).maxDelayMs := by
  obtain ⟨ha, hb⟩ := withRetry_backoff_delays ⟨3, 100, 1000, 2, ["network_error"]⟩
  obtain ⟨hmono, hcap⟩ := hb (by norm_num) (by norm_num) (by norm_num)
  refine ⟨?_, hmono 1 2 (by omega), hcap 9⟩
  rw [ha Unit _ (fun i => ⟨.networkError 500 "x", rfl,
    by simp [isRetryableError, MemoryError.error]⟩) (by decide)]
  norm_num [List.range']

/-- C5: a first failure whose kind is not in `retryableErrors` is returned
as-is after exactly one invocation, with no delay, even though
`maxAttempts > 1`. -/
theorem withRetry_nonretryable_short_circuit {T : Type} (strategy : RetryStrategy)
    (fn : Nat → Outcome T) (e : MemoryError)
    (hmax : 1 < strategy.maxAttempts)
    (h1 : fn 1 = Outcome.failure e)
    (hnr : isRetryableError e strategy = false) :
    withRetry fn strategy = ⟨Outcome.failure e, 1, []⟩ := by
  have hle : ¬ strategy.maxAttempts ≤ 1 := by omega
  rw [withRetry, attempt.eq_def, h1]
  simp [hle, hnr]

/-- Witness for C5: a `permission_denied` failure under the default-like
strategy is returned after one invocation. -/
theorem withRetry_nonretryable_short_circuit_witness :
    withRetry (T := Unit) (fun _ => .failure (.permissionDenied "ds" "read"))
        ⟨3, 100, 1000, 2, ["network_error", "processing_failed"]⟩ =
      ⟨.failure (.permissionDenied "ds" "read"), 1, []⟩ :=
  withRetry_nonretryable_short_circuit _ _ (.permissionDenied "ds" "read")
    (by decide) rfl (by simp [isRetryableError, MemoryError.error])

/-- C7: a success on the first invocation is returned unchanged after exactly
one invocation and no delay, for every strategy. -/
theorem withRetry_success_first {T : Type} (strategy : RetryStrategy)
    (fn : Nat → Outcome T) (v : T) (h : fn 1 = Outcome.success v) :
    withRetry fn strategy = ⟨Outcome.success v, 1, []⟩ := by
  rw [withRetry, attempt.eq_def, h]

/-- Witness for C7 at a degenerate strategy (`maxAttempts = 0`). -/
theorem withRetry_success_first_witness :
    withRetry (T := Nat) (fun _ => .success 42) ⟨0, 0, 0, 0, []⟩ = ⟨.success 42, 1, []⟩ :=
  withRetry_success_first ⟨0, 0, 0, 0, []⟩ (fun _ => .success 42) 42 rfl

/-! ### Circuit breaker: helper lemmas -/

/-- A rejected call: when the open-circuit check fails, `execute` returns the
synthetic failure, does not invoke the thunk, and leaves the breaker
untouched. -/
lemma execute_eq_reject {T : Type} {cb : CircuitBreaker} {now : Int}
    (r : Outcome T) (ft : Int) (h : cb.openCheck now = none) :
    cb.execute now r ft = ⟨cb, .failure syntheticOpenFailure, false⟩ := by
  rw [CircuitBreaker.execute, h]

/-- A forwarded successful call runs the success branch on the
(possibly half-opened) breaker produced by the check. -/
lemma execute_eq_success {T : Type} {cb cb1 : CircuitBreaker} {now : Int}
    (v : T) (ft : Int) (h : cb.openCheck now = some cb1) :
    cb.execute now (Outcome.success v) ft = ⟨cb1.onSuccess, .success v, true⟩ := by
  rw [CircuitBreaker.execute, h]

/-- A forwarded failing call runs the failure branch on the
(possibly half-opened) breaker produced by the check. -/
lemma execute_eq_failure {T : Type} {cb cb1 : CircuitBreaker} {now : Int}
    (e : MemoryError) (ft : Int) (h : cb.openCheck now = some cb1) :
    cb.execute (T := T) now (Outcome.failure e) ft = ⟨cb1.onFailure ft, .failure e, true⟩ := by
  rw [CircuitBreaker.execute, h]

/-- A non-open breaker passes the open-circuit check unchanged. -/
lemma openCheck_of_not_open {cb : CircuitBreaker} {now : Int}
    (h : cb.state ≠ .«open») : cb.openCheck now = some cb := by
  rw [CircuitBreaker.openCheck, if_neg h]

/-- An open breaker whose recorded failure time is non-zero and whose cooldown
has elapsed proceeds half-open. -/
lemma openCheck_of_elapsed {cb : CircuitBreaker} {now t : Int}
    (hs : cb.state = .«open») (hl : cb.lastFailureTime = some t)
    (ht : t ≠ 0) (helapsed : cb.timeout ≤ now - t) :
    cb.openCheck now = some { cb with state := .halfOpen } := by
  rw [CircuitBreaker.openCheck, if_pos hs, hl]
  exact if_pos ⟨ht, helapsed⟩

/-- An open breaker whose cooldown has not elapsed rejects the call. -/
lemma openCheck_of_within {cb : CircuitBreaker} {now t : Int}
    (hs : cb.state = .«open») (hl : cb.lastFailureTime = some t)
    (hwin : now - t < cb.timeout) :
    cb.openCheck now = none := by
  rw [CircuitBreaker.openCheck, if_pos hs, hl]
  refine if_neg ?_
  rintro ⟨-, h2⟩
  omega

/-- Characterisation of a passed open-circuit check: either the breaker was
not open and proceeds unchanged, or it was open and proceeds half-open. -/
lemma openCheck_some {cb cb1 : CircuitBreaker} {now : Int}
    (h : cb.openCheck now = some cb1) :
    (cb.state ≠ .«open» ∧ cb1 = cb) ∨
    (cb.state = .«open» ∧ cb1 = { cb with state := .halfOpen }) := by
  rw [CircuitBreaker.openCheck] at h
  by_cases hs : cb.state = .«open»
  · rw [if_pos hs] at h
    rcases hl : cb.lastFailureTime with _ | t <;> simp only [hl] at h
    · exact Option.noConfusion h
    · by_cases hc : t ≠ 0 ∧ cb.timeout ≤ now - t
      · rw [if_pos hc] at h
        right
        refine ⟨hs, ?_⟩
        injection h with h2
        exact h2.symm
      · rw [if_neg hc] at h
        exact Option.noConfusion h
  · rw [if_neg hs] at h
    left
    refine ⟨hs, ?_⟩
    injection h with h2
    exact h2.symm

/-- A passed open-circuit check never proceeds in the open state and leaves
every field but `state` unchanged. -/
lemma openCheck_fields {cb cb1 : CircuitBreaker} {now : Int}
    (h : cb.openCheck now = some cb1) :
    cb1.state ≠ .«open» ∧ cb1.threshold = cb.threshold ∧
    cb1.timeout = cb.timeout ∧ cb1.failureCount = cb.failureCount ∧
    cb1.lastFailureTime = cb.lastFailureTime := by
  rcases openCheck_some h with ⟨hs, rfl⟩ | ⟨_, rfl⟩
  · exact ⟨hs, rfl, rfl, rfl, rfl⟩
  · refine ⟨?_, rfl, rfl, rfl, rfl⟩
    intro hcontra
    exact CircuitState.noConfusion hcontra

/-- A passed open-circuit check preserves the breaker invariant. -/
lemma openCheck_inv {cb cb1 : CircuitBreaker} {now : Int}
    (hinv : BreakerInv cb) (h : cb.openCheck now = some cb1) : BreakerInv cb1 := by
  rcases openCheck_some h with ⟨_, rfl⟩ | ⟨hs, rfl⟩
  · exact hinv
  · exact ⟨fun hc => CircuitState.noConfusion hc, fun _ => (hinv.1 hs).1⟩

/-- The success branch always leaves the breaker closed when it was not open
on entry. -/
lemma onSuccess_state_closed {cb : CircuitBreaker} (h : cb.state ≠ .«open») :
    (cb.onSuccess).state = .closed := by
  rw [CircuitBreaker.onSuccess]
  rcases hcs : cb.state with _ | _ | _ <;> simp_all

/-- A single `execute` call preserves the breaker invariant. -/
lemma execute_inv {T : Type} {cb : CircuitBreaker} (now : Int) (r : Outcome T)
    (ft : Int) (h : BreakerInv cb) : BreakerInv ((cb.execute now r ft).breaker) := by
  rcases hoc : cb.openCheck now with _ | cb1
  · rw [execute_eq_reject r ft hoc]
    exact h
  · obtain ⟨hno, _, _, _, _⟩ := openCheck_fields hoc
    have hinv1 := openCheck_inv h hoc
    cases r with
    | success v =>
      rw [execute_eq_success v ft hoc]
      have hstate := onSuccess_state_closed hno
      constructor
      · intro hs
        rw [hstate] at hs
        exact CircuitState.noConfusion hs
      · intro hs
        rw [hstate] at hs
        exact CircuitState.noConfusion hs
    | failure e =>
      rw [execute_eq_failure e ft hoc]
      rw [CircuitBreaker.onFailure]
      by_cases hth : cb1.threshold ≤ cb1.failureCount + 1
      · constructor
        · intro _
          exact ⟨by simpa using hth, ft, rfl⟩
        · intro hs
          simp only [if_pos hth] at hs
          exact CircuitState.noConfusion hs
      · constructor
        · intro hs
          simp only [if_neg hth] at hs
          exact absurd hs hno
        · intro hs
          simp only [if_neg hth] at hs
          exact absurd (Nat.le_succ_of_le (hinv1.2 hs)) hth

/-- `reset()` establishes the breaker invariant. -/
lemma reset_inv (cb : CircuitBreaker) : BreakerInv cb.reset :=
  ⟨fun hs => CircuitState.noConfusion hs, fun hs => CircuitState.noConfusion hs⟩

/-- The freshly constructed breaker satisfies the invariant. -/
lemma mk_inv (K : Nat) (tmo : Int) : BreakerInv (mkCircuitBreaker K tmo) :=
  ⟨fun hs => CircuitState.noConfusion hs, fun hs => CircuitState.noConfusion hs⟩

/-- The invariant holds after any call sequence from an invariant state. -/
lemma runCalls_inv {T : Type} (calls : List (BreakerCall T)) :
    ∀ cb : CircuitBreaker, BreakerInv cb → BreakerInv (runCalls cb calls) := by
  induction calls with
  | nil => exact fun _ h => h
  | cons c rest ih =>
    intro cb h
    cases c with
    | exec now r ft => exact ih _ (execute_inv now r ft h)
    | resetCall => exact ih _ (reset_inv cb)

/-- A single `execute` call never changes `threshold` or `timeout`. -/
lemma execute_params {T : Type} (cb : CircuitBreaker) (now : Int) (r : Outcome T)
    (ft : Int) :
    ((cb.execute now r ft).breaker).threshold = cb.threshold ∧
    ((cb.execute now r ft).breaker).timeout = cb.timeout := by
  rcases hoc : cb.openCheck now with _ | cb1
  · rw [execute_eq_reject r ft hoc]
    exact ⟨rfl, rfl⟩
  · obtain ⟨_, hth, hto, _, _⟩ := openCheck_fields hoc
    cases r with
    | success v =>
      rw [execute_eq_success v ft hoc]
      exact ⟨hth, hto⟩
    | failure e =>
      rw [execute_eq_failure e ft hoc]
      exact ⟨hth, hto⟩

/-- `threshold` and `timeout` are constant along any call sequence. -/
lemma runCalls_params {T : Type} (calls : List (BreakerCall T)) :
    ∀ cb : CircuitBreaker,
      (runCalls cb calls).threshold = cb.threshold ∧
      (runCalls cb calls).timeout = cb.timeout := by
  induction calls with
  | nil => exact fun _ => ⟨rfl, rfl⟩
  | cons c rest ih =>
    intro cb
    cases c with
    | exec now r ft =>
      obtain ⟨h1, h2⟩ := ih ((cb.execute now r ft).breaker)
      obtain ⟨h3, h4⟩ := execute_params cb now r ft
      exact ⟨h1.trans h3, h2.trans h4⟩
    | resetCall => exact ih cb.reset

/-- A single `execute` call with a positive failure-time reading keeps every
recorded failure time positive. -/
lemma execute_posLFT {T : Type} {cb : CircuitBreaker} {now ft : Int}
    (r : Outcome T) (hft : 0 < ft)
    (h : ∀ t, cb.lastFailureTime = some t → 0 < t) :
    ∀ t, ((cb.execute now r ft).breaker).lastFailureTime = some t → 0 < t := by
  rcases hoc : cb.openCheck now with _ | cb1
  · rw [execute_eq_reject r ft hoc]
    exact h
  · obtain ⟨_, _, _, _, hlt⟩ := openCheck_fields hoc
    cases r with
    | success v =>
      rw [execute_eq_success v ft hoc]
      intro t htt
      refine h t ?_
      rw [← hlt]
      exact htt
    | failure e =>
      rw [execute_eq_failure e ft hoc]
      intro t htt
      rw [CircuitBreaker.onFailure] at htt
      simp only [Option.some.injEq] at htt
      rw [← htt]
      exact hft

/-- Every failure time recorded along a call sequence whose failure-time
clock readings are positive is positive. -/
lemma runCalls_posLFT {T : Type} (calls : List (BreakerCall T)) :
    ∀ cb : CircuitBreaker,
      (∀ now r ft, BreakerCall.exec now r ft ∈ calls → 0 < ft) →
      (∀ t, cb.lastFailureTime = some t → 0 < t) →
      ∀ t, (runCalls cb calls).lastFailureTime = some t → 0 < t := by
  induction calls with
  | nil => exact fun _ _ h => h
  | cons c rest ih =>
    intro cb hpos h
    cases c with
    | exec now r ft =>
      refine ih _ (fun n0 r0 f0 hm => hpos n0 r0 f0 (List.mem_cons_of_mem _ hm)) ?_
      exact execute_posLFT r (hpos now r ft (List.mem_cons_self _ _)) h
    | resetCall =>
      refine ih _ (fun n0 r0 f0 hm => hpos n0 r0 f0 (List.mem_cons_of_mem _ hm)) ?_
      intro t htt
      exact Option.noConfusion htt

/-- Field computation of the failure branch. -/
lemma onFailure_state (cb : CircuitBreaker) (now : Int) :
    (cb.onFailure now).state =
      if cb.threshold ≤ cb.failureCount + 1 then .«open» else cb.state := rfl

/-- A failing `execute` on a closed breaker increments the count, records the
failure time, and opens the circuit exactly when the threshold is reached. -/
lemma execute_closed_fail {T : Type} {cb : CircuitBreaker} (now : Int)
    (e : MemoryError) (ft : Int) (h : cb.state = .closed) :
    (cb.execute (T := T) now (Outcome.failure e) ft).breaker =
      { cb with
        failureCount := cb.failureCount + 1
        lastFailureTime := some ft
        state := if cb.threshold ≤ cb.failureCount + 1 then .«open» else .closed } := by
  have hno : cb.state ≠ .«open» := by
    rw [h]
    exact fun hc => CircuitState.noConfusion hc
  rw [execute_eq_failure e ft (openCheck_of_not_open hno)]
  show cb.onFailure ft = _
  rw [CircuitBreaker.onFailure, h]

/-- Running exactly `threshold - failureCount` consecutive failing calls on a
closed breaker opens it, with the count at the threshold and a failure time
recorded. -/
lemma failing_run_open {T : Type} :
    ∀ (calls : List (BreakerCall T)) (cb : CircuitBreaker),
      (∀ c ∈ calls, ∃ now e ft, c = BreakerCall.exec now (Outcome.failure e) ft) →
      cb.state = .closed →
      cb.failureCount + calls.length = cb.threshold →
      1 ≤ calls.length →
      (runCalls cb calls).state = .«open» ∧
      (runCalls cb calls).failureCount = cb.threshold ∧
      ∃ t, (runCalls cb calls).lastFailureTime = some t := by
  intro calls
  induction calls with
  | nil => intro cb _ _ _ hlen; exact absurd hlen (by simp)
  | cons c rest ih =>
    intro cb hfails hclosed hcount _
    obtain ⟨now, e, ft, rfl⟩ := hfails _ (List.mem_cons_self _ _)
    simp only [runCalls]
    rw [execute_closed_fail now e ft hclosed]
    simp only [List.length_cons] at hcount
    rcases Nat.eq_zero_or_pos rest.length with hr | hr
    · have hrest : rest = [] := List.length_eq_zero.mp hr
      subst hrest
      have hth : cb.threshold ≤ cb.failureCount + 1 := by omega
      rw [if_pos hth]
      refine ⟨rfl, ?_, ft, rfl⟩
      show cb.failureCount + 1 = cb.threshold
      omega
    · have hth : ¬ cb.threshold ≤ cb.failureCount + 1 := by omega
      rw [if_neg hth]
      exact ih
        { cb with
          failureCount := cb.failureCount + 1
          lastFailureTime := some ft
          state := .closed }
        (fun c hc => hfails c (List.mem_cons_of_mem _ hc)) rfl
        (by show cb.failureCount + 1 + rest.length = cb.threshold; omega)
        hr

/-- Running fewer than `threshold - failureCount` consecutive failing calls
on a closed breaker leaves it closed, the count incremented by the number of
calls. -/
lemma failing_run_closed {T : Type} :
    ∀ (calls : List (BreakerCall T)) (cb : CircuitBreaker),
      (∀ c ∈ calls, ∃ now e ft, c = BreakerCall.exec now (Outcome.failure e) ft) →
      cb.state = .closed →
      cb.failureCount + calls.length < cb.threshold →
      (runCalls cb calls).state = .closed ∧
      (runCalls cb calls).failureCount = cb.failureCount + calls.length := by
  intro calls
  induction calls with
  | nil =>
    intro cb _ hclosed _
    exact ⟨hclosed, by simp [runCalls]⟩
  | cons c rest ih =>
    intro cb hfails hclosed hcount
    obtain ⟨now, e, ft, rfl⟩ := hfails _ (List.mem_cons_self _ _)
    simp only [runCalls]
    rw [execute_closed_fail now e ft hclosed]
    simp only [List.length_cons] at hcount
    have hth : ¬ cb.threshold ≤ cb.failureCount + 1 := by omega
    rw [if_neg hth]
    have hres := ih
      { cb with
        failureCount := cb.failureCount + 1
        lastFailureTime := some ft
        state := .closed }
      (fun c hc => hfails c (List.mem_cons_of_mem _ hc)) rfl
      (by show cb.failureCount + 1 + rest.length < cb.threshold; omega)
    refine ⟨hres.1, ?_⟩
    rw [hres.2]
    show cb.failureCount + 1 + rest.length = cb.failureCount + (rest.length + 1)
    omega

/-! ### Circuit breaker: specified properties -/

/-- C1: a breaker constructed with `threshold = K ≥ 1` and `timeout > 0` is
open after `K` consecutive failing `execute` calls, and the very next
`execute` call made before the cooldown elapses does not invoke the thunk and
immediately returns the synthetic `network_error` failure with status code
503, leaving the breaker untouched. -/
theorem breaker_opens_at_threshold (T : Type) (K : Nat) (tmo : Int)
    (calls : List (BreakerCall T)) (hK : 1 ≤ K) (htmo : 0 < tmo)
    (hlen : calls.length = K)
    (hfails : ∀ c ∈ calls, ∃ now e ft, c = BreakerCall.exec now (Outcome.failure e) ft) :
    (runCalls (mkCircuitBreaker K tmo) calls).getState = .«open» ∧
    ∀ (now : Int) (r : Outcome T) (ft : Int),
      (∀ t, (runCalls (mkCircuitBreaker K tmo) calls).lastFailureTime = some t →
        now - t < tmo) →
      (runCalls (mkCircuitBreaker K tmo) calls).execute now r ft =
        ⟨runCalls (mkCircuitBreaker K tmo) calls,
          .failure (.networkError 503 "Circuit breaker is open"), false⟩ := by
  obtain ⟨hopen, hcount, t0, hlast⟩ :=
    failing_run_open calls (mkCircuitBreaker K tmo) hfails rfl
      (by show 0 + calls.length = K; omega) (by omega)
  refine ⟨hopen, fun now r ft hwin => ?_⟩
  have htmo2 : (runCalls (mkCircuitBreaker K tmo) calls).timeout = tmo :=
    (runCalls_params calls _).2
  exact execute_eq_reject r ft
    (openCheck_of_within hopen hlast (by rw [htmo2]; exact hwin t0 hlast))

/-- Witness for C1: threshold 2, two failing calls open the breaker and the
next call inside the cooldown window is rejected with the synthetic 503
failure without touching the breaker. -/
theorem breaker_opens_at_threshold_witness :
    (runCalls (T := Unit) (mkCircuitBreaker 2 10)
      [.exec 3 (.failure (.unknownError "a")) 3,
       .exec 4 (.failure (.unknownError "b")) 4]).getState = .«open» ∧
    (runCalls (T := Unit) (mkCircuitBreaker 2 10)
      [.exec 3 (.failure (.unknownError "a")) 3,
       .exec 4 (.failure (.unknownError "b")) 4]).execute 5 (.success ()) 5 =
      ⟨runCalls (T := Unit) (mkCircuitBreaker 2 10)
        [.exec 3 (.failure (.unknownError "a")) 3,
         .exec 4 (.failure (.unknownError "b")) 4],
        .failure (.networkError 503 "Circuit breaker is open"), false⟩ := by
  obtain ⟨h1, h2⟩ := breaker_opens_at_threshold Unit 2 10
    [.exec 3 (.failure (.unknownError "a")) 3,
     .exec 4 (.failure (.unknownError "b")) 4]
    (by omega) (by omega) rfl
    (by
      intro c hc
      simp only [List.mem_cons, List.not_mem_nil, or_false] at hc
      rcases hc with rfl | rfl
      · exact ⟨3, .unknownError "a", 3, rfl⟩
      · exact ⟨4, .unknownError "b", 4, rfl⟩)
  refine ⟨h1, h2 5 (.success ()) 5 ?_⟩
  intro t ht
  have hval : (runCalls (T := Unit) (mkCircuitBreaker 2 10)
      [.exec 3 (.failure (.unknownError "a")) 3,
       .exec 4 (.failure (.unknownError "b")) 4]).lastFailureTime = some 4 := by decide
  rw [hval] at ht
  injection ht with ht2
  omega

/-- C10: a call on an open breaker inside the cooldown window
(`now - lastFailureTime < timeout`) returns the synthetic failure, does not
invoke the thunk, and changes none of the breaker's fields. -/
theorem open_reject_frame (T : Type) (cb : CircuitBreaker) (t now : Int)
    (r : Outcome T) (ft : Int)
    (hopen : cb.state = .«open») (hlast : cb.lastFailureTime = some t)
    (hwin : now - t < cb.timeout) :
    cb.execute now r ft = ⟨cb, .failure syntheticOpenFailure, false⟩ :=
  execute_eq_reject r ft (openCheck_of_within hopen hlast hwin)

/-- Witness for C10 on a concrete open breaker. -/
theorem open_reject_frame_witness :
    CircuitBreaker.execute (T := Unit) ⟨2, 10, .«open», 2, some 5⟩ 7 (.success ()) 7 =
      ⟨⟨2, 10, .«open», 2, some 5⟩, .failure syntheticOpenFailure, false⟩ :=
  open_reject_frame Unit ⟨2, 10, .«open», 2, some 5⟩ 5 7 (.success ()) 7 rfl rfl
    (by decide)

/-- C6: in every state reachable from construction, an open circuit has a
recorded failure time; and every transition into the closed state — an
`execute` call landing in `closed` from a non-closed state, or a `reset` —
leaves the failure count at 0. -/
theorem breaker_state_invariants (T : Type) (K : Nat) (tmo : Int)
    (calls : List (BreakerCall T)) :
    ((runCalls (mkCircuitBreaker K tmo) calls).state = .«open» →
      ∃ t, (runCalls (mkCircuitBreaker K tmo) calls).lastFailureTime = some t) ∧
    (∀ (cb : CircuitBreaker) (now : Int) (r : Outcome T) (ft : Int),
      cb.state ≠ .closed → ((cb.execute now r ft).breaker).state = .closed →
      ((cb.execute now r ft).breaker).failureCount = 0) ∧
    (∀ cb : CircuitBreaker, cb.reset.state = .closed ∧ cb.reset.failureCount = 0) := by
  refine ⟨fun hs => ((runCalls_inv calls _ (mk_inv K tmo)).1 hs).2, ?_,
    fun cb => ⟨rfl, rfl⟩⟩
  intro cb now r ft hne hclosed
  rcases hoc : cb.openCheck now with _ | cb1
  · rw [execute_eq_reject r ft hoc] at hclosed
    exact absurd hclosed hne
  · cases r with
    | success v => rw [execute_eq_success v ft hoc]; rfl
    | failure e =>
      exfalso
      rw [execute_eq_failure e ft hoc] at hclosed
      have hstate : (cb1.onFailure ft).state = .closed := hclosed
      rw [onFailure_state] at hstate
      obtain ⟨hno, _, _, _, _⟩ := openCheck_fields hoc
      by_cases hth : cb1.threshold ≤ cb1.failureCount + 1
      · rw [if_pos hth] at hstate
        exact CircuitState.noConfusion hstate
      · rw [if_neg hth] at hstate
        rcases openCheck_some hoc with ⟨_, rfl⟩ | ⟨_, hcb1⟩
        · exact hne hstate
        · rw [hcb1] at hstate
          exact CircuitState.noConfusion hstate

/-- Witness for C6: a reachable open state carries a failure time; a
half-open breaker closing on success has count 0; reset closes with count 0. -/
theorem breaker_state_invariants_witness :
    (∃ t, (runCalls (T := Unit) (mkCircuitBreaker 1 10)
      [.exec 5 (.failure (.unknownError "a")) 5]).lastFailureTime = some t) ∧
    ((CircuitBreaker.execute (T := Unit) ⟨1, 10, .halfOpen, 1, some 5⟩ 20
      (.success ()) 20).breaker).failureCount = 0 ∧
    (CircuitBreaker.reset ⟨1, 10, .«open», 3, some 5⟩).state = .closed ∧
    (CircuitBreaker.reset ⟨1, 10, .«open», 3, some 5⟩).failureCount = 0 := by
  obtain ⟨h1, h2, h3⟩ := breaker_state_invariants Unit 1 10
    [.exec 5 (.failure (.unknownError "a")) 5]
  exact ⟨h1 (by decide),
    h2 ⟨1, 10, .halfOpen, 1, some 5⟩ 20 (.success ()) 20 (by decide) (by decide),
    h3 ⟨1, 10, .«open», 3, some 5⟩⟩

/-- C8: `reset()` at any state returns the breaker to `closed` with
`failureCount = 0` and `lastFailureTime` cleared, and after a reset a failing
call sequence shorter than `threshold` leaves the breaker closed while a full
`threshold`-length failing sequence re-opens it. -/
theorem breaker_reset (T : Type) (cb : CircuitBreaker) :
    cb.reset.getState = .closed ∧ cb.reset.failureCount = 0 ∧
    cb.reset.lastFailureTime = none ∧
    (∀ calls : List (BreakerCall T),
      (∀ c ∈ calls, ∃ now e ft, c = BreakerCall.exec now (Outcome.failure e) ft) →
      calls.length < cb.threshold →
      (runCalls cb.reset calls).state = .closed) ∧
    (∀ calls : List (BreakerCall T),
      (∀ c ∈ calls, ∃ now e ft, c = BreakerCall.exec now (Outcome.failure e) ft) →
      calls.length = cb.threshold → 1 ≤ calls.length →
      (runCalls cb.reset calls).state = .«open») := by
  refine ⟨rfl, rfl, rfl, ?_, ?_⟩
  · intro calls hfails hlt
    exact (failing_run_closed calls cb.reset hfails rfl
      (by show 0 + calls.length < cb.threshold; omega)).1
  · intro calls hfails hlen h1
    exact (failing_run_open calls cb.reset hfails rfl
      (by show 0 + calls.length = cb.threshold; omega) h1).1

/-- Witness for C8: resetting an open breaker with threshold 2; one failing
call keeps it closed, two failing calls re-open it. -/
theorem breaker_reset_witness :
    (CircuitBreaker.reset ⟨2, 10, .«open», 2, some 5⟩).getState = .closed ∧
    (CircuitBreaker.reset ⟨2, 10, .«open», 2, some 5⟩).failureCount = 0 ∧
    (CircuitBreaker.reset ⟨2, 10, .«open», 2, some 5⟩).lastFailureTime = none ∧
    (runCalls (T := Unit) (CircuitBreaker.reset ⟨2, 10, .«open», 2, some 5⟩)
      [.exec 6 (.failure (.unknownError "a")) 6]).state = .closed ∧
    (runCalls (T := Unit) (CircuitBreaker.reset ⟨2, 10, .«open», 2, some 5⟩)
      [.exec 6 (.failure (.unknownError "a")) 6,
       .exec 7 (.failure (.unknownError "b")) 7]).state = .«open» := by
  obtain ⟨h1, h2, h3, h4, h5⟩ := breaker_reset Unit ⟨2, 10, .«open», 2, some 5⟩
  refine ⟨h1, h2, h3, ?_, ?_⟩
  · refine h4 [.exec 6 (.failure (.unknownError "a")) 6] ?_ (by decide)
    intro c hc
    simp only [List.mem_cons, List.not_mem_nil, or_false] at hc
    rcases hc with rfl
    exact ⟨6, .unknownError "a", 6, rfl⟩
  · refine h5 [.exec 6 (.failure (.unknownError "a")) 6,
      .exec 7 (.failure (.unknownError "b")) 7] ?_ (by decide) (by decide)
    intro c hc
    simp only [List.mem_cons, List.not_mem_nil, or_false] at hc
    rcases hc with rfl | rfl
    · exact ⟨6, .unknownError "a", 6, rfl⟩
    · exact ⟨7, .unknownError "b", 7, rfl⟩

/-- C9: along any reachable history with `threshold = K ≥ 1`, a breaker state
observed as half-open has `failureCount ≥ K`; in particular whenever the
open-circuit check admits a half-open trial, the trial state already carries
`failureCount ≥ K`, so a failing trial call always re-opens the circuit even
though the code guards the transition by `failureCount >= threshold`. -/
theorem halfopen_failure_reopens (T : Type) (K : Nat) (tmo : Int)
    (calls : List (BreakerCall T)) (hK : 1 ≤ K) :
    ((runCalls (mkCircuitBreaker K tmo) calls).state = .halfOpen →
      K ≤ (runCalls (mkCircuitBreaker K tmo) calls).failureCount) ∧
    (∀ (now : Int) (cb1 : CircuitBreaker),
      (runCalls (mkCircuitBreaker K tmo) calls).openCheck now = some cb1 →
      cb1.state = .halfOpen →
      K ≤ cb1.failureCount ∧
      ∀ (e : MemoryError) (ft : Int),
        ((runCalls (mkCircuitBreaker K tmo) calls).execute (T := T) now
          (Outcome.failure e) ft).breaker.state = .«open») := by
  have hinv := runCalls_inv calls _ (mk_inv K tmo)
  have hth : (runCalls (mkCircuitBreaker K tmo) calls).threshold = K :=
    (runCalls_params calls _).1
  constructor
  · intro hs
    have h := hinv.2 hs
    rwa [hth] at h
  · intro now cb1 hoc hhalf
    have hinv1 := openCheck_inv hinv hoc
    have hcnt : K ≤ cb1.failureCount := by
      have h := hinv1.2 hhalf
      rwa [(openCheck_fields hoc).2.1, hth] at h
    refine ⟨hcnt, fun e ft => ?_⟩
    rw [execute_eq_failure e ft hoc]
    show (cb1.onFailure ft).state = .«open»
    rw [onFailure_state, if_pos]
    rw [(openCheck_fields hoc).2.1, hth]
    omega

/-- Witness for C9: with threshold 1, a reachable open breaker whose cooldown
elapsed admits a half-open trial with count ≥ 1, and a failing trial
re-opens it. -/
theorem halfopen_failure_reopens_witness :
    1 ≤ (⟨1, 10, .halfOpen, 1, some 5⟩ : CircuitBreaker).failureCount ∧
    ((runCalls (T := Unit) (mkCircuitBreaker 1 10)
      [.exec 5 (.failure (.unknownError "a")) 5]).execute (T := Unit) 20
        (.failure (.unknownError "b")) 21).breaker.state = .«open» := by
  obtain ⟨_, h2⟩ := halfopen_failure_reopens Unit 1 10
    [.exec 5 (.failure (.unknownError "a")) 5] (by omega)
  obtain ⟨hc, hre⟩ := h2 20 ⟨1, 10, .halfOpen, 1, some 5⟩ (by decide) rfl
  exact ⟨hc, hre (.unknownError "b") 21⟩

/-- The success branch applied to a half-opened breaker closes it and zeroes
the count, keeping the recorded failure time. -/
lemma onSuccess_halfOpen (cb : CircuitBreaker) :
    ({ cb with state := CircuitState.halfOpen } : CircuitBreaker).onSuccess =
      ⟨cb.threshold, cb.timeout, .closed, 0, cb.lastFailureTime⟩ := rfl

/-- The failure branch applied to a half-opened breaker whose count has
reached the threshold re-opens it. -/
lemma onFailure_halfOpen (cb : CircuitBreaker) (ftime : Int)
    (h : cb.threshold ≤ cb.failureCount + 1) :
    ({ cb with state := CircuitState.halfOpen } : CircuitBreaker).onFailure ftime =
      ⟨cb.threshold, cb.timeout, .«open», cb.failureCount + 1, some ftime⟩ := by
  rw [CircuitBreaker.onFailure]
  simp [h]

/-- A half-open trial on any open breaker satisfying the invariant, with a
positive recorded failure time and an elapsed cooldown: the check admits the
trial half-open; a success closes the breaker and zeroes the count; a failure
increments the count, records the failure time, and re-opens the breaker. -/
lemma open_trial_general {T : Type} {cb : CircuitBreaker} {t now failTime : Int}
    (hinv : BreakerInv cb) (hposl : ∀ t0, cb.lastFailureTime = some t0 → 0 < t0)
    (hopen : cb.state = .«open») (hlast : cb.lastFailureTime = some t)
    (helapsed : cb.timeout ≤ now - t) :
    cb.openCheck now = some { cb with state := .halfOpen } ∧
    (∀ v : T, cb.execute now (Outcome.success v) failTime =
      ⟨⟨cb.threshold, cb.timeout, .closed, 0, cb.lastFailureTime⟩,
        Outcome.success v, true⟩) ∧
    (∀ e : MemoryError, cb.execute (T := T) now (Outcome.failure e) failTime =
      ⟨⟨cb.threshold, cb.timeout, .«open», cb.failureCount + 1, some failTime⟩,
        Outcome.failure e, true⟩) := by
  have ht : t ≠ 0 := (hposl t hlast).ne'
  have hoc := openCheck_of_elapsed hopen hlast ht helapsed
  have hth : cb.threshold ≤ cb.failureCount + 1 :=
    Nat.le_succ_of_le (hinv.1 hopen).1
  refine ⟨hoc, fun v => ?_, fun e => ?_⟩
  · rw [execute_eq_success v failTime hoc, onSuccess_halfOpen]
  · rw [execute_eq_failure e failTime hoc, onFailure_halfOpen cb failTime hth]

/-- C2: for a breaker in a reachable open state whose recorded failure times
came from positive clock readings, an `execute` call with
`now - lastFailureTime ≥ timeout` transitions the breaker to half-open and
forwards exactly that one call to the thunk; a successful trial closes the
breaker with `failureCount` reset to 0, while a failing trial increments
`failureCount`, records `lastFailureTime`, and transitions back to open. -/
theorem open_cooldown_elapsed_trial (T : Type) (K : Nat) (tmo : Int)
    (calls : List (BreakerCall T)) (t now failTime : Int)
    (hpos : ∀ now0 r0 ft0, BreakerCall.exec now0 r0 ft0 ∈ calls → 0 < ft0)
    (hopen : (runCalls (mkCircuitBreaker K tmo) calls).state = .«open»)
    (hlast : (runCalls (mkCircuitBreaker K tmo) calls).lastFailureTime = some t)
    (helapsed : tmo ≤ now - t) :
    (runCalls (mkCircuitBreaker K tmo) calls).openCheck now =
      some { runCalls (mkCircuitBreaker K tmo) calls with state := .halfOpen } ∧
    (∀ v : T, (runCalls (mkCircuitBreaker K tmo) calls).execute now
        (Outcome.success v) failTime =
      ⟨⟨(runCalls (mkCircuitBreaker K tmo) calls).threshold,
        (runCalls (mkCircuitBreaker K tmo) calls).timeout, .closed, 0,
        (runCalls (mkCircuitBreaker K tmo) calls).lastFailureTime⟩,
        Outcome.success v, true⟩) ∧
    (∀ e : MemoryError, (runCalls (mkCircuitBreaker K tmo) calls).execute (T := T) now
        (Outcome.failure e) failTime =
      ⟨⟨(runCalls (mkCircuitBreaker K tmo) calls).threshold,
        (runCalls (mkCircuitBreaker K tmo) calls).timeout, .«open»,
        (runCalls (mkCircuitBreaker K tmo) calls).failureCount + 1, some failTime⟩,
        Outcome.failure e, true⟩) := by
  have hinv := runCalls_inv calls _ (mk_inv K tmo)
  have hposl := runCalls_posLFT calls (mkCircuitBreaker K tmo) hpos
    (fun t0 h0 => Option.noConfusion (show (none : Option Int) = some t0 from h0))
  have htmo2 : (runCalls (mkCircuitBreaker K tmo) calls).timeout = tmo :=
    (runCalls_params calls _).2
  exact open_trial_general hinv hposl hopen hlast (by rw [htmo2]; exact helapsed)

/-- Witness for C2: breaker with threshold 1, opened by one failing call at
time 5; at time 20 (cooldown 10 elapsed) a successful trial closes it with
count 0, and a failing trial re-opens it with count 2 and the new failure
time recorded. -/
theorem open_cooldown_elapsed_trial_witness :
    (runCalls (T := Unit) (mkCircuitBreaker 1 10)
      [.exec 5 (.failure (.unknownError "a")) 5]).execute 20
        (Outcome.success ()) 21 =
      ⟨⟨1, 10, .closed, 0, some 5⟩, Outcome.success (), true⟩ ∧
    (runCalls (T := Unit) (mkCircuitBreaker 1 10)
      [.exec 5 (.failure (.unknownError "a")) 5]).execute (T := Unit) 20
        (Outcome.failure (.unknownError "b")) 21 =
      ⟨⟨1, 10, .«open», 2, some 21⟩, Outcome.failure (.unknownError "b"), true⟩ := by
  obtain ⟨h1, h2, h3⟩ := open_cooldown_elapsed_trial Unit 1 10
    [.exec 5 (.failure (.unknownError "a")) 5] 5 20 21
    (by
      intro n0 r0 f0 hm
      simp only [List.mem_cons, List.not_mem_nil, or_false] at hm
      cases hm
      decide)
    (by decide) (by decide) (by decide)
  exact ⟨(h2 ()).trans (by decide), (h3 (.unknownError "b")).trans (by decide)⟩
